import Mathlib

/-!
# Verification of the Athena II integration core

A shallow embedding, in Lean 4, of the data-acquisition / normalization
pipeline and the MJPEG single-frame extractor of the `athena2` custom
component (files `coordinator.py`, `camera.py`, `const.py`), together with
proofs about the embedded definitions.

Modelling conventions:
* Python byte strings are `List Nat` (one entry per byte).
* Python `float` values are modelled as exact rationals (`Rat`); the claims
  under study are about structure (which field is converted, by what rule),
  not about binary floating-point rounding.
* Python dicts are association lists `List (String × Value)`; a dict never
  holds two entries with the same key, and `dict.copy()` followed by keyed
  assignments is the pointwise `List.map` over the entries.
* Fallible operations return `Option`/`Except`.
-/

/-! ## Generic list scanning (models Python `bytes.find`, suffix tests) -/

/-- `startsWithL l p` is true when `p` is an initial run of `l`
(the generic building block for Python substring search). -/
def startsWithL {α : Type} [DecidableEq α] : List α → List α → Bool
  | _, [] => true
  | [], _ :: _ => false
  | a :: l, b :: p => if a = b then startsWithL l p else false

/-- `endsWithL l p` is true when `p` is a final run of `l`. -/
def endsWithL {α : Type} [DecidableEq α] (l p : List α) : Bool :=
  startsWithL l.reverse p.reverse

/-- `findSub pat l` models Python `l.find(pat)`: the least index at which
`pat` occurs in `l`, or `none` when it does not occur. -/
def findSub {α : Type} [DecidableEq α] (pat : List α) : List α → Option Nat
  | [] => if startsWithL ([] : List α) pat then some 0 else none
  | a :: l =>
    if startsWithL (a :: l) pat then some 0
    else (findSub pat l).map (· + 1)

/-! ## Python scalar parsing

`pyFloat` models the decimal core of Python's `float(str)` (optional
surrounding ASCII whitespace, optional sign, digits with at most one dot);
`pyIntOfBytes` likewise models `int(bytes)`.  The exotic float spellings
(exponents, `inf`/`nan`, underscores) are outside the behaviours the claims
exercise and are treated as unparsable. -/

def isWsChar (c : Char) : Bool :=
  c = ' ' || c = '\t' || c = '\n' || c = '\r' || c = '\x0b' || c = '\x0c'

/-- Python `str.rstrip(chars)`: remove every trailing character that is a
member of `cs` (a character *set*, not a suffix). -/
def pyRstrip (s : String) (cs : List Char) : String :=
  ⟨(s.toList.reverse.dropWhile (fun c => cs.contains c)).reverse⟩

/-- Python `str.strip()` (whitespace on both ends). -/
def pyStripStr (s : String) : String :=
  ⟨((s.toList.dropWhile isWsChar).reverse.dropWhile isWsChar).reverse⟩

/-- Value of a list of decimal digit characters; `none` if any entry is not
a digit.  The empty list is `some 0` (callers guard non-emptiness). -/
def decDigitsValC (l : List Char) : Option Nat :=
  l.foldl
    (fun acc c =>
      match acc with
      | none => none
      | some n => if c.isDigit then some (n * 10 + (c.toNat - 48)) else none)
    (some 0)

/-- Unsigned decimal-float body: `digits`, `digits.digits`, `digits.`, or
`.digits`; at least one digit overall. -/
def parseUnsignedFloat (l : List Char) : Option Rat :=
  match l.dropWhile Char.isDigit with
  | [] =>
    if l = [] then none
    else (decDigitsValC l).map (fun n => (n : Rat))
  | '.' :: fr =>
    if fr.all Char.isDigit then
      if l.takeWhile Char.isDigit = [] ∧ fr = [] then none
      else
        match decDigitsValC (l.takeWhile Char.isDigit), decDigitsValC fr with
        | some a, some b => some ((a : Rat) + (b : Rat) / (10 : Rat) ^ fr.length)
        | _, _ => none
    else none
  | _ => none

/-- The decimal core of Python `float(s)`. -/
def pyFloat (s : String) : Option Rat :=
  match ((s.toList.dropWhile isWsChar).reverse.dropWhile isWsChar).reverse with
  | [] => none
  | '+' :: r => parseUnsignedFloat r
  | '-' :: r => (parseUnsignedFloat r).map Neg.neg
  | r => parseUnsignedFloat r

def isWsByte (b : Nat) : Bool :=
  b = 32 || b = 9 || b = 10 || b = 13 || b = 11 || b = 12

def stripWsBytes (l : List Nat) : List Nat :=
  ((l.dropWhile isWsByte).reverse.dropWhile isWsByte).reverse

/-- Value of a list of ASCII decimal digit bytes (empty list is `some 0`,
callers guard non-emptiness). -/
def decDigitsValB (l : List Nat) : Option Nat :=
  l.foldl
    (fun acc b =>
      match acc with
      | none => none
      | some n => if 48 ≤ b ∧ b ≤ 57 then some (n * 10 + (b - 48)) else none)
    (some 0)

/-- Python `int(bytes)`: optional surrounding whitespace, optional sign,
decimal digits.  Negative values are representable (and `int` happily
returns them), hence the result is `Int`. -/
def pyIntOfBytes (l : List Nat) : Option Int :=
  match stripWsBytes l with
  | [] => none
  | 43 :: ds =>
    if ds = [] then none else (decDigitsValB ds).map (fun n => (n : Int))
  | 45 :: ds =>
    if ds = [] then none else (decDigitsValB ds).map (fun n => -(n : Int))
  | ds => (decDigitsValB ds).map (fun n => (n : Int))

/-! ## JSON-ish values and dict operations -/

/-- A JSON-decoded Python value as it appears in the status payload:
string, int, float, bool, or null.  (Nested containers never reach the
normalizer's special-cased fields and are not needed by any claim.) -/
inductive Value where
  | str (s : String)
  | int (n : Int)
  | float (q : Rat)
  | bool (b : Bool)
  | null
deriving DecidableEq, Repr

/-- First-match association-list lookup: Python `d[k]` / `k in d`. -/
def dlookup {α : Type} (k : String) : List (String × α) → Option α
  | [] => none
  | (k', v) :: t => if k' = k then some v else dlookup k t

/-- Python `base.update(upd)` on dicts: keys already in `base` keep their
position but receive the `upd` value; new keys are appended. -/
def dictUpdate (base upd : List (String × Value)) : List (String × Value) :=
  base.map (fun kv =>
    match dlookup kv.1 upd with
    | some v => (kv.1, v)
    | none => kv)
  ++ upd.filter (fun kv => (dlookup kv.1 base).isNone)

/-! ## `const.py`: the analytic metric table -/

/-- `ANALYTIC_METRICS` from `const.py`: metric id → snapshot field name. -/
def ANALYTIC_METRICS : List (Nat × String) :=
  [(0, "layer_height"),
   (1, "solid_area"),
   (2, "area_count"),
   (3, "largest_area"),
   (4, "speed"),
   (5, "cure"),
   (6, "pressure"),
   (7, "temperature_inside"),
   (8, "temperature_outside"),
   (9, "layer_time_analytic"),
   (10, "lift_height"),
   (11, "temperature_mcu_analytic"),
   (12, "temperature_inside_target"),
   (13, "temperature_outside_target"),
   (14, "temperature_mcu_target"),
   (15, "mcu_fan_rpm_analytic"),
   (16, "uv_fan_rpm_analytic"),
   (17, "dynamic_wait"),
   (18, "temperature_vat"),
   (19, "temperature_vat_target"),
   (20, "ptc_fan_rpm"),
   (21, "aegis_fan_rpm"),
   (22, "temperature_chamber"),
   (23, "temperature_chamber_target"),
   (24, "temperature_ptc"),
   (25, "temperature_ptc_target"),
   (26, "voc_inlet"),
   (27, "voc_outlet")]

/-! ## `coordinator.py`: `_normalize_data` -/

/-- The per-field action of `Athena2Coordinator._normalize_data`.
Each special key is handled independently, so the whole transform is the
pointwise map of this function over the dict entries.

* `disk`/`mem`/`proc`: if the value is a string, `float(value.rstrip("%"))`;
  on `ValueError` the value is left unchanged (a warning is logged).
* `temp`: if the value is a string, `float(value.rstrip("°C"))`, same
  failure policy.  `rstrip` removes *all* trailing `°`/`C` characters.
* `CurrentHeight`: if `isinstance(value, (int, float))`, divide by `1000.0`.
  Python `bool` is a subclass of `int`, so booleans satisfy this test
  (`True` behaves as `1`, `False` as `0`).
* every other key: unchanged. -/
def normalizeField (key : String) (v : Value) : Value :=
  if key = "disk" ∨ key = "mem" ∨ key = "proc" then
    match v with
    | Value.str s =>
      match pyFloat (pyRstrip s ['%']) with
      | some q => Value.float q
      | none => v
    | _ => v
  else if key = "temp" then
    match v with
    | Value.str s =>
      match pyFloat (pyRstrip s ['°', 'C']) with
      | some q => Value.float q
      | none => v
    | _ => v
  else if key = "CurrentHeight" then
    match v with
    | Value.int n => Value.float ((n : Rat) / 1000)
    | Value.float q => Value.float (q / 1000)
    | Value.bool b => Value.float ((if b then (1 : Rat) else 0) / 1000)
    | _ => v
  else v

/-- `Athena2Coordinator._normalize_data`: `data.copy()` followed by keyed
reassignment of the special fields, i.e. the pointwise per-key transform. -/
def _normalize_data (data : List (String × Value)) : List (String × Value) :=
  data.map (fun kv => (kv.1, normalizeField kv.1 kv.2))

/-! ## `coordinator.py`: `_fetch_analytic_data` -/

/-- Outcome of one `GET /analytic/value/{id}` call, as distinguished by the
code: a timeout (`asyncio.TimeoutError`), a transport failure
(`aiohttp.ClientError`), or an HTTP response with a status code and a text
body. -/
inductive AnalyticResp where
  | timeout
  | clientError
  | status (code : Nat) (body : String)

/-- The per-metric loop body of `_fetch_analytic_data`, folded over a
metric table: only a 200 response whose stripped body parses with `float`
contributes an entry; every other outcome skips the metric and continues. -/
def fetchAnalyticList (resp : Nat → AnalyticResp) :
    List (Nat × String) → List (String × Value)
  | [] => []
  | (mid, key) :: rest =>
    match resp mid with
    | AnalyticResp.status code body =>
      if code = 200 then
        match pyFloat (pyStripStr body) with
        | some q => (key, Value.float q) :: fetchAnalyticList resp rest
        | none => fetchAnalyticList resp rest
      else fetchAnalyticList resp rest
    | _ => fetchAnalyticList resp rest

/-- `Athena2Coordinator._fetch_analytic_data`, given the outcome of each
metric-id request. -/
def _fetch_analytic_data (resp : Nat → AnalyticResp) : List (String × Value) :=
  fetchAnalyticList resp ANALYTIC_METRICS

/-! ## `coordinator.py`: `_async_update_data` and the refresh contract -/

/-- Outcome of the status fetch (`GET /status` + `.raise_for_status()` +
`.json()`), as distinguished by the `except` clauses of
`_async_update_data`:
* `timeout` — `asyncio.TimeoutError`;
* `non2xx`  — `raise_for_status` raised `aiohttp.ClientResponseError`
  (a `ClientError`) for a non-success status code;
* `clientError` — any other `aiohttp.ClientError` (connection refused …);
* `badJson` — `response.json()` raised `ValueError`;
* `ok body` — a decoded JSON object. -/
inductive StatusFetch where
  | timeout
  | non2xx (code : Nat)
  | clientError
  | badJson
  | ok (body : List (String × Value))

/-- `Athena2Coordinator._async_update_data`.  An `Except.error` is an
`UpdateFailed` raised to the caller (each failure constructor lands in the
corresponding `except` clause; a missing `Status` field raises
`UpdateFailed` directly). -/
def _async_update_data (status : StatusFetch) (resp : Nat → AnalyticResp) :
    Except String (List (String × Value)) :=
  match status with
  | StatusFetch.timeout =>
    Except.error "Timeout communicating with printer"
  | StatusFetch.non2xx code =>
    Except.error ("Error communicating with printer: HTTP " ++ toString code)
  | StatusFetch.clientError =>
    Except.error "Error communicating with printer"
  | StatusFetch.badJson =>
    Except.error "Invalid JSON response from printer"
  | StatusFetch.ok data =>
    if dlookup "Status" data = none then
      Except.error "Invalid response from printer - missing Status field"
    else
      Except.ok (_normalize_data (dictUpdate data (_fetch_analytic_data resp)))

/-- Modelled from the spec: the host framework's `DataUpdateCoordinator`
(which lives outside this repository) keeps the previously cached snapshot
and reports failure when `_async_update_data` raises an `UpdateFailed`-class
error; only a successful refresh replaces the externally visible data. -/
def refreshStep (cache : Option (List (String × Value)))
    (status : StatusFetch) (resp : Nat → AnalyticResp) :
    Option (List (String × Value)) × Bool :=
  match _async_update_data status resp with
  | Except.ok snap => (some snap, true)
  | Except.error _ => (cache, false)

/-! ## `camera.py`: `_extract_mjpeg_frame` -/

/-- The JPEG start-of-image marker bytes `\xff\xd8`. -/
def jpegStartMarker : List Nat := [255, 216]

/-- The JPEG end-of-image marker bytes `\xff\xd9`. -/
def jpegEndMarker : List Nat := [255, 217]

/-- The bytes of `b"Content-Length:"`. -/
def clMarkerBytes : List Nat :=
  [67, 111, 110, 116, 101, 110, 116, 45, 76, 101, 110, 103, 116, 104, 58]

/-- The bytes of `b"\r\n"`. -/
def crlfBytes : List Nat := [13, 10]

/-- The opportunistic `Content-Length:` parse:
`int(buffer.split(b"Content-Length:")[1].split(b"\r\n")[0].strip())`.
`split(marker)[1]` is the run between the first and (if any) second
occurrence of the marker; `split(b"\r\n")[0]` then cuts at the first CRLF
inside that run.  `none` when the marker is absent or `int` fails. -/
def clParse (buf : List Nat) : Option Int :=
  match findSub clMarkerBytes buf with
  | none => none
  | some i =>
    let after := buf.drop (i + clMarkerBytes.length)
    let seg :=
      match findSub clMarkerBytes after with
      | some k => after.take k
      | none => after
    let line :=
      match findSub crlfBytes seg with
      | some k => seg.take k
      | none => seg
    pyIntOfBytes line

/-- Loop state of `_extract_mjpeg_frame` between two chunks. -/
structure ExtractState where
  buffer : List Nat
  content_length : Option Int
  in_jpeg : Bool
deriving DecidableEq, Repr

/-- `content_length` reassignment: attempted only while not inside a frame;
kept unchanged when the marker is absent or `int(...)` raises. -/
def updateCL (inj : Bool) (old : Option Int) (buf : List Nat) : Option Int :=
  if inj then old
  else
    match clParse buf with
    | some n => some n
    | none => old

/-- Start-marker search: when not yet inside a frame, find `\xff\xd8` and,
if present, drop the noise before it and mark "inside a frame". -/
def findStart (inj : Bool) (buf : List Nat) : Bool × List Nat :=
  if inj then (true, buf)
  else
    match findSub jpegStartMarker buf with
    | some i => (true, buf.drop i)
    | none => (false, buf)

/-- `if content_length and len(buffer) >= content_length + 1000:` —
Python truthiness makes `0` (and `None`) falsy, and the captured value is a
Python `int`, so the comparison is over `Int`. -/
def valveFires : Option Int → Nat → Bool
  | some n, len => if n ≠ 0 ∧ (n + 1000 : Int) ≤ (len : Int) then true else false
  | none, _ => false

/-- The tail of one loop iteration, after the buffer has been extended and
the start-marker/content-length bookkeeping applied: in-frame end-marker
search (returning the frame through the marker inclusive), then the
content-length safety valve (one more end-marker search), then the 2 MB
ceiling (`break`, i.e. overall `None`), else carry the state to the next
chunk. -/
def finishChunk (buf : List Nat) (cl : Option Int) (inj : Bool) :
    ExtractState ⊕ Option (List Nat) :=
  match (if inj then findSub jpegEndMarker buf else none) with
  | some j => Sum.inr (some (buf.take (j + 2)))
  | none =>
    if valveFires cl buf.length then
      match findSub jpegEndMarker buf with
      | some j => Sum.inr (some (buf.take (j + 2)))
      | none =>
        if 2 * 1024 * 1024 < buf.length then Sum.inr none
        else Sum.inl ⟨buf, cl, inj⟩
    else
      if 2 * 1024 * 1024 < buf.length then Sum.inr none
      else Sum.inl ⟨buf, cl, inj⟩

/-- One iteration of `async for chunk in response.content.iter_chunked(4096)`. -/
def stepChunk (st : ExtractState) (chunk : List Nat) :
    ExtractState ⊕ Option (List Nat) :=
  finishChunk
    ((findStart st.in_jpeg (st.buffer ++ chunk)).2)
    (updateCL st.in_jpeg st.content_length (st.buffer ++ chunk))
    ((findStart st.in_jpeg (st.buffer ++ chunk)).1)

/-- The chunk loop; an exhausted iterator (EOF) yields `None`. -/
def extractLoop : ExtractState → List (List Nat) → Option (List Nat)
  | _, [] => none
  | st, c :: rest =>
    match stepChunk st c with
    | Sum.inl st' => extractLoop st' rest
    | Sum.inr res => res

/-- `Athena2Camera._extract_mjpeg_frame` on a streamed body delivered as a
list of chunks (each at most 4096 bytes in the real transport; nothing
below depends on the chunking). -/
def _extract_mjpeg_frame (chunks : List (List Nat)) : Option (List Nat) :=
  extractLoop ⟨[], none, false⟩ chunks

/-! ## `camera.py`: `async_camera_image` -/

/-- The camera-entity state touched by `async_camera_image`:
`_last_frame_time` (a `datetime.timestamp()` float, here a rational) and
`_last_image` (the cached rotated JPEG bytes, if any). -/
structure CamState where
  last_frame_time : Rat
  last_image : Option (List Nat)
deriving DecidableEq, Repr

/-- Outcome of `GET` on the stream URL (+ `raise_for_status`), as
distinguished by the `except` clauses: timeout, transport/HTTP failure, or
a streamed body. -/
inductive CameraFetch where
  | timeout
  | clientError
  | body (chunks : List (List Nat))

/-- Result of one `async_camera_image` call: the returned bytes (or
`None`), the camera state afterwards, and whether a network fetch was
started. -/
structure CamCall where
  result : Option (List Nat)
  state : CamState
  fetched : Bool
deriving DecidableEq, Repr

/-- `self._frame_interval = 1.0 / camera_fps`. -/
def frameIntervalOf (fps : Rat) : Rat := 1 / fps

/-- `Athena2Camera.async_camera_image`.

`encode` abstracts the external `PIL` pipeline
(`Image.open` → `rotate(-90, expand=True)` → `save(JPEG, quality=85)`);
`none` means that pipeline raised, which the broad `except` turns into the
cached-image fallback.  An empty extracted frame is falsy in Python
(`if not image_data:`), hence the explicit `[]` case. -/
def async_camera_image (st : CamState) (now : Rat) (frame_interval : Rat)
    (outcome : CameraFetch) (encode : List Nat → Option (List Nat)) : CamCall :=
  if now - st.last_frame_time < frame_interval ∧ st.last_image ≠ none then
    ⟨st.last_image, st, false⟩
  else
    match outcome with
    | CameraFetch.timeout => ⟨st.last_image, st, true⟩
    | CameraFetch.clientError => ⟨st.last_image, st, true⟩
    | CameraFetch.body chunks =>
      match _extract_mjpeg_frame chunks with
      | none => ⟨st.last_image, st, true⟩
      | some img =>
        if img = [] then ⟨st.last_image, st, true⟩
        else
          match encode img with
          | none => ⟨st.last_image, st, true⟩
          | some out => ⟨some out, ⟨now, some out⟩, true⟩

/-- The failure paths of `async_camera_image` once a fetch is attempted:
timeout, transport failure, empty/absent extraction, or a raising
rotate/encode step. -/
def camFailure (outcome : CameraFetch) (encode : List Nat → Option (List Nat)) : Prop :=
  match outcome with
  | CameraFetch.timeout => True
  | CameraFetch.clientError => True
  | CameraFetch.body chunks =>
    match _extract_mjpeg_frame chunks with
    | none => True
    | some img => img = [] ∨ encode img = none

/-! ## Lemmas about `startsWithL` and `findSub` -/

theorem startsWithL_nil_iff {α : Type} [DecidableEq α] (p : List α) :
    startsWithL ([] : List α) p = true ↔ p = [] := by
  cases p <;> simp [startsWithL]

theorem startsWithL_cons_self {α : Type} [DecidableEq α] (a : α) (l p : List α) :
    startsWithL (a :: l) (a :: p) = startsWithL l p := by
  simp [startsWithL]

theorem startsWithL_cons_ne {α : Type} [DecidableEq α] {a b : α} (l p : List α)
    (hab : a ≠ b) : startsWithL (a :: l) (b :: p) = false := by
  simp [startsWithL, hab]

theorem startsWithL_iff {α : Type} [DecidableEq α] (l p : List α) :
    startsWithL l p = true ↔ ∃ t, l = p ++ t := by
  induction p generalizing l with
  | nil => simp [startsWithL]
  | cons b p ih =>
    cases l with
    | nil =>
      simp only [startsWithL, Bool.false_eq_true, false_iff]
      rintro ⟨t, ht⟩
      exact List.cons_ne_nil _ _ ht.symm
    | cons a l =>
      by_cases hab : a = b
      · subst hab
        rw [startsWithL_cons_self, ih]
        constructor
        · rintro ⟨t, rfl⟩; exact ⟨t, rfl⟩
        · rintro ⟨t, ht⟩
          simp only [List.cons_append, List.cons.injEq] at ht
          exact ⟨t, ht.2⟩
      · rw [startsWithL_cons_ne _ _ hab]
        simp only [Bool.false_eq_true, false_iff]
        rintro ⟨t, ht⟩
        simp only [List.cons_append, List.cons.injEq] at ht
        exact hab ht.1

theorem startsWithL_append {α : Type} [DecidableEq α] {l p : List α} (t : List α)
    (h : startsWithL l p = true) : startsWithL (l ++ t) p = true := by
  rw [startsWithL_iff] at h ⊢
  obtain ⟨u, rfl⟩ := h
  exact ⟨u ++ t, by simp⟩

theorem startsWithL_length {α : Type} [DecidableEq α] {l p : List α}
    (h : startsWithL l p = true) : p.length ≤ l.length := by
  rw [startsWithL_iff] at h
  obtain ⟨u, rfl⟩ := h
  simp

/-- An occurrence of `p` at position `m` of `x` survives appending. -/
theorem occ_append {α : Type} [DecidableEq α] {x p : List α} {m : Nat} (t : List α)
    (h : startsWithL (x.drop m) p = true) :
    startsWithL ((x ++ t).drop m) p = true := by
  by_cases hm : m ≤ x.length
  · rw [List.drop_append_of_le_length hm]
    exact startsWithL_append t h
  · rw [List.drop_of_length_le (le_of_not_le hm)] at h
    rw [startsWithL_nil_iff] at h
    subst h
    cases (x ++ t).drop m <;> simp [startsWithL]

/-- An occurrence wholly inside the left part of an append restricts. -/
theorem occ_restrict {α : Type} [DecidableEq α] {x t p : List α} {m : Nat}
    (h : startsWithL ((x ++ t).drop m) p = true)
    (hm : m + p.length ≤ x.length) :
    startsWithL (x.drop m) p = true := by
  have hmx : m ≤ x.length := le_trans (Nat.le_add_right m p.length) hm
  rw [List.drop_append_of_le_length hmx] at h
  rw [startsWithL_iff] at h ⊢
  obtain ⟨u, hu⟩ := h
  have hlen : p.length ≤ (x.drop m).length := by
    rw [List.length_drop]; omega
  have htake : (x.drop m).take p.length = p := by
    have h1 : ((x.drop m) ++ t).take p.length = (x.drop m).take p.length :=
      List.take_append_of_le_length hlen
    rw [hu] at h1
    have h2 : (p ++ u).take p.length = p := List.take_left' rfl
    rw [h2] at h1
    exact h1.symm
  refine ⟨(x.drop m).drop p.length, ?_⟩
  conv_lhs => rw [← List.take_append_drop p.length (x.drop m)]
  rw [htake]

/-- An occurrence of a non-empty pattern fits inside the list. -/
theorem occ_le_length {α : Type} [DecidableEq α] {x p : List α} {m : Nat}
    (h : startsWithL (x.drop m) p = true) (hp : p ≠ []) :
    m + p.length ≤ x.length := by
  rw [startsWithL_iff] at h
  obtain ⟨u, hu⟩ := h
  have hlen : x.length - m = p.length + u.length := by
    rw [← List.length_drop, hu]; simp
  rcases Nat.lt_or_ge m x.length with hm | hm
  · omega
  · rw [List.drop_of_length_le hm] at hu
    exact absurd (List.append_eq_nil.mp hu.symm).1 hp

theorem findSub_none_iff {α : Type} [DecidableEq α] (p l : List α) :
    findSub p l = none ↔ ∀ m, startsWithL (l.drop m) p = false := by
  induction l with
  | nil =>
    simp only [findSub, List.drop_nil]
    by_cases h : startsWithL ([] : List α) p = true
    · simp [h]
    · simp only [if_neg h]
      simp only [Bool.not_eq_true] at h
      simp [h]
  | cons a l ih =>
    simp only [findSub]
    by_cases h : startsWithL (a :: l) p = true
    · simp only [if_pos h]
      constructor
      · intro hc; exact absurd hc (by simp)
      · intro hall
        have h0 := hall 0
        simp only [List.drop_zero] at h0
        rw [h] at h0; exact absurd h0 (by simp)
    · simp only [if_neg h, Option.map_eq_none']
      rw [ih]
      constructor
      · intro hall m
        cases m with
        | zero => simpa using h
        | succ m => simpa [List.drop_succ_cons] using hall m
      · intro hall m
        have := hall (m + 1)
        simpa [List.drop_succ_cons] using this

theorem findSub_some_iff {α : Type} [DecidableEq α] (p l : List α) (i : Nat) :
    findSub p l = some i ↔
      (startsWithL (l.drop i) p = true ∧
       ∀ m, m < i → startsWithL (l.drop m) p = false) := by
  induction l generalizing i with
  | nil =>
    simp only [findSub, List.drop_nil]
    by_cases h : startsWithL ([] : List α) p = true
    · simp only [if_pos h, h]
      constructor
      · intro hc
        obtain rfl : i = 0 := by simpa using hc.symm
        exact ⟨trivial, by omega⟩
      · rintro ⟨-, hmin⟩
        rcases Nat.eq_zero_or_pos i with rfl | hpos
        · simp [h]
        · exact absurd (hmin 0 hpos) (by simp [h])
    · simp only [if_neg h]
      simp only [Bool.not_eq_true] at h
      simp [h]
  | cons a l ih =>
    simp only [findSub]
    by_cases h : startsWithL (a :: l) p = true
    · simp only [if_pos h]
      constructor
      · intro hc
        obtain rfl : i = 0 := by simpa using hc.symm
        exact ⟨by simpa using h, by omega⟩
      · rintro ⟨-, hmin⟩
        rcases Nat.eq_zero_or_pos i with rfl | hpos
        · rfl
        · have h0 := hmin 0 hpos
          simp only [List.drop_zero] at h0
          rw [h] at h0; exact absurd h0 (by simp)
    · simp only [if_neg h, Option.map_eq_some']
      constructor
      · rintro ⟨i', hi', rfl⟩
        rw [ih] at hi'
        refine ⟨by simpa [List.drop_succ_cons] using hi'.1, ?_⟩
        intro m hm
        cases m with
        | zero => simpa using h
        | succ m =>
          have := hi'.2 m (by omega)
          simpa [List.drop_succ_cons] using this
      · rintro ⟨hocc, hmin⟩
        cases i with
        | zero =>
          simp only [List.drop_zero] at hocc
          rw [hocc] at h; exact absurd rfl h
        | succ i =>
          refine ⟨i, ?_, rfl⟩
          rw [ih]
          refine ⟨by simpa [List.drop_succ_cons] using hocc, ?_⟩
          intro m hm
          have := hmin (m + 1) (by omega)
          simpa [List.drop_succ_cons] using this

theorem startsWithL_pat_nil {α : Type} [DecidableEq α] (l : List α) :
    startsWithL l [] = true := by
  cases l <;> rfl

theorem findSub_append_some {α : Type} [DecidableEq α] {p x : List α} {i : Nat}
    (t : List α) (h : findSub p x = some i) : findSub p (x ++ t) = some i := by
  rw [findSub_some_iff] at h ⊢
  obtain ⟨hocc, hmin⟩ := h
  refine ⟨occ_append t hocc, ?_⟩
  intro m hm
  by_contra hc
  simp only [Bool.not_eq_false] at hc
  rcases eq_or_ne p ([] : List α) with rfl | hp
  · have hfalse := hmin 0 (by omega)
    rw [startsWithL_pat_nil] at hfalse
    exact absurd hfalse (by simp)
  · have hle : i + p.length ≤ x.length := occ_le_length hocc hp
    have hx : startsWithL (x.drop m) p = true := occ_restrict hc (by omega)
    rw [hmin m hm] at hx
    exact absurd hx (by simp)

theorem findSub_append_none {α : Type} [DecidableEq α] {p x : List α}
    (t : List α) (h : findSub p (x ++ t) = none) : findSub p x = none := by
  rw [findSub_none_iff] at h ⊢
  intro m
  by_contra hc
  simp only [Bool.not_eq_false] at hc
  have := occ_append t hc
  rw [h m] at this
  exact absurd this (by simp)

theorem findSub_drop_none {α : Type} [DecidableEq α] {p x : List α} {i : Nat}
    (h : findSub p x = none) : findSub p (x.drop i) = none := by
  rw [findSub_none_iff] at h ⊢
  intro m
  by_contra hc
  simp only [Bool.not_eq_false] at hc
  rw [List.drop_drop] at hc
  rw [h (i + m)] at hc
  exact absurd hc (by simp)

/-! ## Lemmas about one extractor iteration -/

theorem clParse_eq_none {buf : List Nat}
    (h : findSub clMarkerBytes buf = none) : clParse buf = none := by
  simp [clParse, h]

/-- A frame returned through `buf.take (j + 2)` at an end-marker hit always
ends with the end marker. -/
theorem take_endsWith_marker {buf : List Nat} {j : Nat}
    (h : findSub jpegEndMarker buf = some j) :
    endsWithL (buf.take (j + 2)) jpegEndMarker = true := by
  rw [findSub_some_iff] at h
  have hocc := h.1
  rw [startsWithL_iff] at hocc
  obtain ⟨u, hu⟩ := hocc
  have htake : buf.take (j + 2) = buf.take j ++ [255, 217] := by
    rw [List.take_add]
    congr 1
    rw [hu]
    rfl
  rw [htake]
  simp [endsWithL, startsWithL, List.reverse_append]

/-- When the (possibly trimmed) buffer contains no end marker, one
iteration either breaks at the 2 MB ceiling or carries the state over. -/
theorem finishChunk_noEnd {buf : List Nat} (cl : Option Int) (inj : Bool)
    (h : findSub jpegEndMarker buf = none) :
    finishChunk buf cl inj =
      (if 2 * 1024 * 1024 < buf.length then Sum.inr none
       else Sum.inl ⟨buf, cl, inj⟩) := by
  cases inj <;> simp only [finishChunk, h, if_true, if_false] <;>
    by_cases hv : valveFires cl buf.length = true <;> simp [hv, h]

/-- When not inside a frame and the valve is disarmed (`content_length`
still `None`), the iteration never returns a frame. -/
theorem finishChunk_passive (buf : List Nat) :
    finishChunk buf none false =
      (if 2 * 1024 * 1024 < buf.length then Sum.inr none
       else Sum.inl ⟨buf, none, false⟩) := by
  simp [finishChunk, valveFires]

/-- In-frame end-marker hit: the frame through the marker is returned. -/
theorem finishChunk_end {buf : List Nat} (cl : Option Int) {j : Nat}
    (h : findSub jpegEndMarker buf = some j) :
    finishChunk buf cl true = Sum.inr (some (buf.take (j + 2))) := by
  simp [finishChunk, h]

/-- Any frame an iteration returns ends with the end marker. -/
theorem finishChunk_inr_some {buf : List Nat} {cl : Option Int} {inj : Bool}
    {r : List Nat} (h : finishChunk buf cl inj = Sum.inr (some r)) :
    endsWithL r jpegEndMarker = true := by
  cases hE : findSub jpegEndMarker buf with
  | some j =>
    cases inj with
    | true =>
      rw [finishChunk_end cl hE] at h
      obtain rfl : buf.take (j + 2) = r := by simpa using h
      exact take_endsWith_marker hE
    | false =>
      simp only [finishChunk, if_neg (Bool.false_ne_true)] at h
      by_cases hv : valveFires cl buf.length = true
      · rw [if_pos hv] at h
        rw [hE] at h
        obtain rfl : buf.take (j + 2) = r := by simpa using h
        exact take_endsWith_marker hE
      · rw [if_neg hv] at h
        by_cases hc : 2 * 1024 * 1024 < buf.length <;> simp [hc] at h
  | none =>
    rw [finishChunk_noEnd cl inj hE] at h
    by_cases hc : 2 * 1024 * 1024 < buf.length <;> simp [hc] at h

/-! ## Master lemmas about the extractor loop -/

/-- If the end marker never occurs in what remains of the stream (current
buffer plus all future chunks), the loop — from any state — returns `None`
(either at EOF or at the 2 MB ceiling). -/
theorem extractLoop_noEnd (chunks : List (List Nat)) :
    ∀ st : ExtractState,
      findSub jpegEndMarker (st.buffer ++ chunks.flatten) = none →
      extractLoop st chunks = none := by
  induction chunks with
  | nil => intro st h; rfl
  | cons c rest ih =>
    intro st h
    rw [List.flatten_cons, ← List.append_assoc] at h
    have h2 : findSub jpegEndMarker (st.buffer ++ c) = none :=
      findSub_append_none _ h
    cases hinj : st.in_jpeg with
    | true =>
      have hfs : findStart st.in_jpeg (st.buffer ++ c) = (true, st.buffer ++ c) := by
        rw [hinj]; simp [findStart]
      have hstep : stepChunk st c =
          finishChunk (st.buffer ++ c)
            (updateCL st.in_jpeg st.content_length (st.buffer ++ c)) true := by
        simp [stepChunk, hfs]
      rw [finishChunk_noEnd _ _ h2] at hstep
      by_cases hbig : 2 * 1024 * 1024 < (st.buffer ++ c).length
      · rw [if_pos hbig] at hstep
        simp [extractLoop, hstep]
      · rw [if_neg hbig] at hstep
        simp only [extractLoop, hstep]
        exact ih _ h
    | false =>
      cases hS : findSub jpegStartMarker (st.buffer ++ c) with
      | none =>
        have hfs : findStart st.in_jpeg (st.buffer ++ c) = (false, st.buffer ++ c) := by
          rw [hinj]; simp [findStart, hS]
        have hstep : stepChunk st c =
            finishChunk (st.buffer ++ c)
              (updateCL st.in_jpeg st.content_length (st.buffer ++ c)) false := by
          simp [stepChunk, hfs]
        rw [finishChunk_noEnd _ _ h2] at hstep
        by_cases hbig : 2 * 1024 * 1024 < (st.buffer ++ c).length
        · rw [if_pos hbig] at hstep
          simp [extractLoop, hstep]
        · rw [if_neg hbig] at hstep
          simp only [extractLoop, hstep]
          exact ih _ h
      | some i =>
        have hfs : findStart st.in_jpeg (st.buffer ++ c) =
            (true, (st.buffer ++ c).drop i) := by
          rw [hinj]; simp [findStart, hS]
        have hstep : stepChunk st c =
            finishChunk ((st.buffer ++ c).drop i)
              (updateCL st.in_jpeg st.content_length (st.buffer ++ c)) true := by
          simp [stepChunk, hfs]
        have h2' : findSub jpegEndMarker ((st.buffer ++ c).drop i) = none :=
          findSub_drop_none h2
        have hi2 : i + 2 ≤ (st.buffer ++ c).length := by
          have := occ_le_length ((findSub_some_iff _ _ _).mp hS).1
            (by decide : jpegStartMarker ≠ [])
          simpa [jpegStartMarker] using this
        have hdropappend :
            (st.buffer ++ c).drop i ++ rest.flatten =
              ((st.buffer ++ c) ++ rest.flatten).drop i :=
          (List.drop_append_of_le_length (by omega)).symm
        have hrest : findSub jpegEndMarker
            ((st.buffer ++ c).drop i ++ rest.flatten) = none := by
          rw [hdropappend]
          exact findSub_drop_none h
        rw [finishChunk_noEnd _ _ h2'] at hstep
        by_cases hbig : 2 * 1024 * 1024 < ((st.buffer ++ c).drop i).length
        · rw [if_pos hbig] at hstep
          simp [extractLoop, hstep]
        · rw [if_neg hbig] at hstep
          simp only [extractLoop, hstep]
          exact ih _ hrest

/-- Inside a frame with a disarmed valve: if the first end marker of the
trimmed remainder arrives within the 2 MB ceiling, the loop returns the
bytes through that marker. -/
theorem extractLoopB_found (chunks : List (List Nat)) :
    ∀ (b : List Nat) (r : Nat),
      findSub jpegEndMarker b = none →
      (b ++ chunks.flatten).length ≤ 2 * 1024 * 1024 →
      findSub jpegEndMarker (b ++ chunks.flatten) = some r →
      extractLoop ⟨b, none, true⟩ chunks =
        some ((b ++ chunks.flatten).take (r + 2)) := by
  induction chunks with
  | nil =>
    intro b r hnone _ hsome
    rw [List.flatten_nil, List.append_nil] at hsome
    rw [hnone] at hsome
    exact absurd hsome (by simp)
  | cons c rest ih =>
    intro b r hnone hlen hsome
    rw [List.flatten_cons, ← List.append_assoc] at hlen hsome ⊢
    have hfs : findStart true (b ++ c) = (true, b ++ c) := by
      simp [findStart]
    have hcl : updateCL true (none : Option Int) (b ++ c) = none := rfl
    have hstep : stepChunk ⟨b, none, true⟩ c =
        finishChunk (b ++ c) none true := by
      simp [stepChunk, hfs, hcl]
    cases hE : findSub jpegEndMarker (b ++ c) with
    | some j =>
      have hj : findSub jpegEndMarker ((b ++ c) ++ rest.flatten) = some j :=
        findSub_append_some _ hE
      have hjr : j = r := Option.some.inj (hj.symm.trans hsome)
      subst hjr
      have hj2 : j + 2 ≤ (b ++ c).length := by
        have := occ_le_length ((findSub_some_iff _ _ _).mp hE).1
          (by decide : jpegEndMarker ≠ [])
        simpa [jpegEndMarker] using this
      rw [finishChunk_end none hE] at hstep
      simp only [extractLoop, hstep]
      have htk : ((b ++ c) ++ rest.flatten).take (j + 2) = (b ++ c).take (j + 2) :=
        List.take_append_of_le_length (by omega)
      rw [htk]
    | none =>
      rw [finishChunk_noEnd none true hE] at hstep
      have hbufle : (b ++ c).length ≤ ((b ++ c) ++ rest.flatten).length := by
        simp
      rw [if_neg (by omega : ¬ 2 * 1024 * 1024 < (b ++ c).length)] at hstep
      simp only [extractLoop, hstep]
      exact ih (b ++ c) r hE hlen hsome

/-- Not yet inside a frame, `Content-Length:` absent from the whole stream
(so the safety valve stays disarmed): if every occurrence of the start
marker is followed by no end marker, the loop returns `None`. -/
theorem extractLoopA_none (chunks : List (List Nat)) :
    ∀ s : List Nat,
      findSub clMarkerBytes (s ++ chunks.flatten) = none →
      findSub jpegStartMarker s = none →
      (∀ i, findSub jpegStartMarker (s ++ chunks.flatten) = some i →
            findSub jpegEndMarker ((s ++ chunks.flatten).drop i) = none) →
      extractLoop ⟨s, none, false⟩ chunks = none := by
  induction chunks with
  | nil => intro s _ _ _; rfl
  | cons c rest ih =>
    intro s hCL hS0 hPair
    rw [List.flatten_cons, ← List.append_assoc] at hCL hPair
    have hclbuf : findSub clMarkerBytes (s ++ c) = none :=
      findSub_append_none _ hCL
    have hcl : updateCL false (none : Option Int) (s ++ c) = none := by
      simp [updateCL, clParse_eq_none hclbuf]
    cases hS : findSub jpegStartMarker (s ++ c) with
    | none =>
      have hfs : findStart false (s ++ c) = (false, s ++ c) := by
        simp [findStart, hS]
      have hstep : stepChunk ⟨s, none, false⟩ c =
          finishChunk (s ++ c) none false := by
        simp [stepChunk, hfs, hcl]
      rw [finishChunk_passive] at hstep
      by_cases hbig : 2 * 1024 * 1024 < (s ++ c).length
      · rw [if_pos hbig] at hstep
        simp [extractLoop, hstep]
      · rw [if_neg hbig] at hstep
        simp only [extractLoop, hstep]
        exact ih (s ++ c) hCL hS hPair
    | some i =>
      have hfs : findStart false (s ++ c) = (true, (s ++ c).drop i) := by
        simp [findStart, hS]
      have hstep : stepChunk ⟨s, none, false⟩ c =
          finishChunk ((s ++ c).drop i) none true := by
        simp [stepChunk, hfs, hcl]
      have hjS_tot : findSub jpegStartMarker ((s ++ c) ++ rest.flatten) = some i :=
        findSub_append_some _ hS
      have hE_tot := hPair i hjS_tot
      have hi2 : i + 2 ≤ (s ++ c).length := by
        have := occ_le_length ((findSub_some_iff _ _ _).mp hS).1
          (by decide : jpegStartMarker ≠ [])
        simpa [jpegStartMarker] using this
      have hdrop : ((s ++ c) ++ rest.flatten).drop i =
          (s ++ c).drop i ++ rest.flatten :=
        List.drop_append_of_le_length (by omega)
      rw [hdrop] at hE_tot
      have h2' : findSub jpegEndMarker ((s ++ c).drop i) = none :=
        findSub_append_none _ hE_tot
      rw [finishChunk_noEnd _ _ h2'] at hstep
      by_cases hbig : 2 * 1024 * 1024 < ((s ++ c).drop i).length
      · rw [if_pos hbig] at hstep
        simp [extractLoop, hstep]
      · rw [if_neg hbig] at hstep
        simp only [extractLoop, hstep]
        exact extractLoop_noEnd rest _ hE_tot

/-- Not yet inside a frame, `Content-Length:` absent from the whole stream,
total stream within the 2 MB ceiling: the loop returns exactly the bytes
from the first start marker through the first subsequent end marker. -/
theorem extractLoopA_found (chunks : List (List Nat)) :
    ∀ (s : List Nat) (i r : Nat),
      findSub clMarkerBytes (s ++ chunks.flatten) = none →
      findSub jpegStartMarker s = none →
      (s ++ chunks.flatten).length ≤ 2 * 1024 * 1024 →
      findSub jpegStartMarker (s ++ chunks.flatten) = some i →
      findSub jpegEndMarker ((s ++ chunks.flatten).drop i) = some r →
      extractLoop ⟨s, none, false⟩ chunks =
        some (((s ++ chunks.flatten).drop i).take (r + 2)) := by
  induction chunks with
  | nil =>
    intro s i r _ hS0 _ hiS _
    rw [List.flatten_nil, List.append_nil] at hiS
    rw [hS0] at hiS
    exact absurd hiS (by simp)
  | cons c rest ih =>
    intro s i r hCL hS0 hlen hiS hEr
    rw [List.flatten_cons, ← List.append_assoc] at hCL hlen hiS hEr ⊢
    have hclbuf : findSub clMarkerBytes (s ++ c) = none :=
      findSub_append_none _ hCL
    have hcl : updateCL false (none : Option Int) (s ++ c) = none := by
      simp [updateCL, clParse_eq_none hclbuf]
    cases hS : findSub jpegStartMarker (s ++ c) with
    | none =>
      have hfs : findStart false (s ++ c) = (false, s ++ c) := by
        simp [findStart, hS]
      have hstep : stepChunk ⟨s, none, false⟩ c =
          finishChunk (s ++ c) none false := by
        simp [stepChunk, hfs, hcl]
      rw [finishChunk_passive] at hstep
      have hbufle : (s ++ c).length ≤ ((s ++ c) ++ rest.flatten).length := by
        simp
      rw [if_neg (by omega : ¬ 2 * 1024 * 1024 < (s ++ c).length)] at hstep
      simp only [extractLoop, hstep]
      exact ih (s ++ c) i r hCL hS hlen hiS hEr
    | some i' =>
      have hi'_tot : findSub jpegStartMarker ((s ++ c) ++ rest.flatten) = some i' :=
        findSub_append_some _ hS
      obtain rfl : i' = i := Option.some.inj (hi'_tot.symm.trans hiS)
      have hfs : findStart false (s ++ c) = (true, (s ++ c).drop i') := by
        simp [findStart, hS]
      have hstep : stepChunk ⟨s, none, false⟩ c =
          finishChunk ((s ++ c).drop i') none true := by
        simp [stepChunk, hfs, hcl]
      have hi2 : i' + 2 ≤ (s ++ c).length := by
        have := occ_le_length ((findSub_some_iff _ _ _).mp hS).1
          (by decide : jpegStartMarker ≠ [])
        simpa [jpegStartMarker] using this
      have hdrop : ((s ++ c) ++ rest.flatten).drop i' =
          (s ++ c).drop i' ++ rest.flatten :=
        List.drop_append_of_le_length (by omega)
      rw [hdrop] at hEr
      cases hE : findSub jpegEndMarker ((s ++ c).drop i') with
      | some j =>
        have hj_tot : findSub jpegEndMarker
            ((s ++ c).drop i' ++ rest.flatten) = some j :=
          findSub_append_some _ hE
        obtain rfl : j = r := Option.some.inj (hj_tot.symm.trans hEr)
        have hj2 : j + 2 ≤ ((s ++ c).drop i').length := by
          have := occ_le_length ((findSub_some_iff _ _ _).mp hE).1
            (by decide : jpegEndMarker ≠ [])
          simpa [jpegEndMarker] using this
        rw [finishChunk_end none hE] at hstep
        simp only [extractLoop, hstep]
        rw [hdrop]
        have htk : ((s ++ c).drop i' ++ rest.flatten).take (j + 2) =
            ((s ++ c).drop i').take (j + 2) :=
          List.take_append_of_le_length (by omega)
        rw [htk]
      | none =>
        rw [finishChunk_noEnd _ _ hE] at hstep
        have hd1 : ((s ++ c).drop i').length ≤ (s ++ c).length := by
          rw [List.length_drop]; omega
        have hbufle : (s ++ c).length ≤ ((s ++ c) ++ rest.flatten).length := by
          simp
        rw [if_neg (by omega : ¬ 2 * 1024 * 1024 <
          ((s ++ c).drop i').length)] at hstep
        simp only [extractLoop, hstep]
        rw [hdrop]
        refine extractLoopB_found rest ((s ++ c).drop i') r hE ?_ hEr
        have hlen2 : ((s ++ c).drop i' ++ rest.flatten).length =
            ((s ++ c) ++ rest.flatten).length - i' := by
          rw [← hdrop, List.length_drop]
        omega

/-- Whatever frame the loop returns, it ends with the end marker. -/
theorem extractLoop_some_endsWith (chunks : List (List Nat)) :
    ∀ (st : ExtractState) (r : List Nat),
      extractLoop st chunks = some r →
      endsWithL r jpegEndMarker = true := by
  induction chunks with
  | nil =>
    intro st r h
    exact absurd h (by simp [extractLoop])
  | cons c rest ih =>
    intro st r h
    simp only [extractLoop] at h
    cases hstep : stepChunk st c with
    | inl st' =>
      rw [hstep] at h
      exact ih st' r h
    | inr res =>
      rw [hstep] at h
      obtain rfl : res = some r := h
      exact finishChunk_inr_some hstep

/-! ## Lemmas about the normalizer and the dict operations -/

/-- Python's `isinstance(value, (int, float))` (booleans are ints). -/
def isNumericValue : Value → Bool
  | Value.int _ => true
  | Value.float _ => true
  | Value.bool _ => true
  | _ => false

theorem normalizeField_float {k : String} (q : Rat) (hk : k ≠ "CurrentHeight") :
    normalizeField k (Value.float q) = Value.float q := by
  unfold normalizeField
  by_cases h1 : k = "disk" ∨ k = "mem" ∨ k = "proc"
  · simp [h1]
  · by_cases h2 : k = "temp"
    · simp [h1, h2]
    · simp [h1, h2, hk]

theorem normalizeField_idem (k : String) (v : Value)
    (h : k = "CurrentHeight" → isNumericValue v = false) :
    normalizeField k (normalizeField k v) = normalizeField k v := by
  by_cases h1 : k = "disk" ∨ k = "mem" ∨ k = "proc"
  · cases v with
    | str s =>
      simp only [normalizeField, if_pos h1]
      cases hp : pyFloat (pyRstrip s ['%']) with
      | some q => simp [normalizeField, if_pos h1]
      | none => simp [normalizeField, if_pos h1, hp]
    | _ => simp [normalizeField, if_pos h1]
  · by_cases h2 : k = "temp"
    · cases v with
      | str s =>
        simp only [normalizeField, if_neg h1, if_pos h2]
        cases hp : pyFloat (pyRstrip s ['°', 'C']) with
        | some q => simp [normalizeField, if_neg h1, if_pos h2]
        | none => simp [normalizeField, if_neg h1, if_pos h2, hp]
      | _ => simp [normalizeField, if_neg h1, if_pos h2]
    · by_cases h3 : k = "CurrentHeight"
      · have hv := h h3
        cases v <;> simp_all [normalizeField, isNumericValue, if_neg h1, if_neg h2, if_pos h3]
      · simp [normalizeField, if_neg h1, if_neg h2, if_neg h3]

theorem dlookup_append {α : Type} (k : String) (xs ys : List (String × α)) :
    dlookup k (xs ++ ys) =
      (match dlookup k xs with
       | some v => some v
       | none => dlookup k ys) := by
  induction xs with
  | nil => simp [dlookup]
  | cons kv t ih =>
    obtain ⟨k', v⟩ := kv
    by_cases hk : k' = k <;> simp [dlookup, hk, ih]

theorem dlookup_normalize (k : String) (m : List (String × Value)) :
    dlookup k (_normalize_data m) = (dlookup k m).map (normalizeField k) := by
  induction m with
  | nil => simp [dlookup, _normalize_data]
  | cons kv t ih =>
    obtain ⟨k', v⟩ := kv
    by_cases hk : k' = k
    · subst hk
      simp [dlookup, _normalize_data]
    · simpa [dlookup, _normalize_data, hk] using ih

theorem dlookup_map_update (k : String) (base upd : List (String × Value)) :
    dlookup k (base.map (fun kv =>
      match dlookup kv.1 upd with
      | some v => (kv.1, v)
      | none => kv)) =
      (match dlookup k base with
       | some v₀ =>
         (match dlookup k upd with
          | some v => some v
          | none => some v₀)
       | none => none) := by
  induction base with
  | nil => simp [dlookup]
  | cons kv t ih =>
    obtain ⟨k', v'⟩ := kv
    by_cases hk : k' = k
    · subst hk
      cases hu : dlookup k' upd <;> simp [dlookup, hu]
    · cases hu : dlookup k' upd <;> simp [dlookup, hk, hu, ih]

theorem dlookup_filter_not_in_base (k : String)
    (base upd : List (String × Value)) (hb : dlookup k base = none) :
    dlookup k (upd.filter (fun kv => (dlookup kv.1 base).isNone)) =
      dlookup k upd := by
  induction upd with
  | nil => simp [dlookup]
  | cons kv t ih =>
    obtain ⟨k', v'⟩ := kv
    by_cases hk : k' = k
    · subst hk
      simp [List.filter_cons, hb, dlookup, ih]
    · by_cases hkeep : (dlookup k' base).isNone
      · simp [List.filter_cons, hkeep, dlookup, hk, ih]
      · simp [List.filter_cons, hkeep, dlookup, hk, ih]

/-- Python `base.update(upd)`: the updated dict answers lookups from `upd`
first, falling back to `base`. -/
theorem dlookup_dictUpdate (k : String) (base upd : List (String × Value)) :
    dlookup k (dictUpdate base upd) =
      (match dlookup k upd with
       | some v => some v
       | none => dlookup k base) := by
  unfold dictUpdate
  rw [dlookup_append, dlookup_map_update]
  cases hb : dlookup k base with
  | some v₀ =>
    cases hu : dlookup k upd <;> simp
  | none =>
    rw [dlookup_filter_not_in_base k base upd hb]
    cases hu : dlookup k upd <;> simp

/-- The parse a single analytic response must pass to contribute an entry:
HTTP 200 and a float-parsable stripped text body. -/
def analyticParsed : AnalyticResp → Option Value
  | AnalyticResp.status code body =>
    if code = 200 then (pyFloat (pyStripStr body)).map Value.float
    else none
  | _ => none

theorem fetchAnalyticList_cons (resp : Nat → AnalyticResp) (mid : Nat)
    (key : String) (rest : List (Nat × String)) :
    fetchAnalyticList resp ((mid, key) :: rest) =
      (match analyticParsed (resp mid) with
       | some v => (key, v) :: fetchAnalyticList resp rest
       | none => fetchAnalyticList resp rest) := by
  cases hr : resp mid with
  | status code body =>
    by_cases hc : code = 200
    · subst hc
      cases hp : pyFloat (pyStripStr body) with
      | some q => simp [fetchAnalyticList, hr, analyticParsed, hp]
      | none => simp [fetchAnalyticList, hr, analyticParsed, hp]
    · simp [fetchAnalyticList, hr, analyticParsed, hc]
  | timeout => simp [fetchAnalyticList, hr, analyticParsed]
  | clientError => simp [fetchAnalyticList, hr, analyticParsed]

theorem mem_fetchAnalyticList (resp : Nat → AnalyticResp)
    (tbl : List (Nat × String)) (k : String) (v : Value) :
    (k, v) ∈ fetchAnalyticList resp tbl ↔
      ∃ mid, (mid, k) ∈ tbl ∧ analyticParsed (resp mid) = some v := by
  induction tbl with
  | nil => simp [fetchAnalyticList]
  | cons hd rest ih =>
    obtain ⟨mid, key⟩ := hd
    rw [fetchAnalyticList_cons]
    cases hp : analyticParsed (resp mid) with
    | some w =>
      constructor
      · intro h
        rcases List.mem_cons.mp h with heq | hmem
        · obtain ⟨rfl, rfl⟩ : k = key ∧ v = w := by simpa using heq
          exact ⟨mid, List.mem_cons_self _ _, hp⟩
        · obtain ⟨mid', hmem', hpar⟩ := ih.mp hmem
          exact ⟨mid', List.mem_cons_of_mem _ hmem', hpar⟩
      · rintro ⟨mid', hmem, hpar⟩
        rcases List.mem_cons.mp hmem with heq | hmem'
        · obtain ⟨rfl, rfl⟩ : mid' = mid ∧ k = key := by simpa using heq
          obtain rfl : w = v := Option.some.inj (hp.symm.trans hpar)
          exact List.mem_cons_self _ _
        · exact List.mem_cons_of_mem _ (ih.mpr ⟨mid', hmem', hpar⟩)
    | none =>
      rw [ih]
      constructor
      · rintro ⟨mid', hmem, hpar⟩
        exact ⟨mid', List.mem_cons_of_mem _ hmem, hpar⟩
      · rintro ⟨mid', hmem, hpar⟩
        rcases List.mem_cons.mp hmem with heq | hmem'
        · obtain ⟨rfl, rfl⟩ : mid' = mid ∧ k = key := by simpa using heq
          exact absurd (hp.symm.trans hpar) (by simp)
        · exact ⟨mid', hmem', hpar⟩

/-- A key the analytic fetch answers for comes from the metric table. -/
theorem dlookup_fetchAnalyticList_mem (resp : Nat → AnalyticResp)
    (tbl : List (Nat × String)) (k : String) (v : Value)
    (h : dlookup k (fetchAnalyticList resp tbl) = some v) :
    k ∈ tbl.map Prod.snd := by
  induction tbl with
  | nil => simp [fetchAnalyticList, dlookup] at h
  | cons hd rest ih =>
    obtain ⟨mid, key⟩ := hd
    rw [fetchAnalyticList_cons] at h
    by_cases hk : key = k
    · simp [hk]
    · refine List.mem_cons_of_mem _ ?_
      cases hp : analyticParsed (resp mid) with
      | some w =>
        rw [hp] at h
        rw [dlookup, if_neg hk] at h
        exact ih h
      | none =>
        rw [hp] at h
        exact ih h

theorem normalizeField_other (k : String) (v : Value)
    (h1 : ¬(k = "disk" ∨ k = "mem" ∨ k = "proc"))
    (h2 : k ≠ "temp") (h3 : k ≠ "CurrentHeight") :
    normalizeField k v = v := by
  simp [normalizeField, h1, h2, h3]

/-! ## The spec's reference normalizer, and the amended transform -/

/-- `strEndsWith s suf` decides whether `suf` is a (single) suffix of `s`. -/
def strEndsWith (s suf : String) : Bool :=
  startsWithL s.toList.reverse suf.toList.reverse

/-- Remove one copy of a suffix (the spec's "strip suffix"). -/
def strDropSuffix (s suf : String) : String :=
  ⟨(s.toList.reverse.drop suf.toList.length).reverse⟩

/-- The reference transform exactly as the spec words it: `disk`/`mem`/
`proc` convert only when the string carries a `%` suffix, which is stripped
once before parsing; `temp` likewise with the `°C` suffix; a *numeric*
`CurrentHeight` — the spec's data model lists booleans apart from numbers —
is divided by 1000; everything else passes through unchanged. -/
def specNormalizeField (key : String) (v : Value) : Value :=
  if key = "disk" ∨ key = "mem" ∨ key = "proc" then
    match v with
    | Value.str s =>
      if strEndsWith s "%" then
        match pyFloat (strDropSuffix s "%") with
        | some q => Value.float q
        | none => v
      else v
    | _ => v
  else if key = "temp" then
    match v with
    | Value.str s =>
      if strEndsWith s "°C" then
        match pyFloat (strDropSuffix s "°C") with
        | some q => Value.float q
        | none => v
      else v
    | _ => v
  else if key = "CurrentHeight" then
    match v with
    | Value.int n => Value.float ((n : Rat) / 1000)
    | Value.float q => Value.float (q / 1000)
    | _ => v
  else v

/-- The spec's reference normalizer applied to a whole snapshot. -/
def specNormalize (data : List (String × Value)) : List (String × Value) :=
  data.map (fun kv => (kv.1, specNormalizeField kv.1 kv.2))

/-- Python `isinstance(v, (int, float))` as a numeric reading: ints, floats
and — because `bool` is a subclass of `int` — booleans (`True` is `1`). -/
def pyNumericVal : Value → Option Rat
  | Value.int n => some (n : Rat)
  | Value.float q => some q
  | Value.bool b => some (if b then 1 else 0)
  | _ => none

/-- "Remove every trailing character of the set, then convert if the
remainder parses as a float" — the amended description of the string
conversions (bare numeric strings therefore convert as well). -/
def stripConvert (cs : List Char) (v : Value) : Value :=
  match v with
  | Value.str s =>
    match pyFloat (pyRstrip s cs) with
    | some q => Value.float q
    | none => Value.str s
  | _ => v

/-- The amended per-field transform: `disk`/`mem`/`proc` are
strip-converted over the character set `{%}`, `temp` over `{°, C}`, and
`CurrentHeight` is divided by 1000 whenever it reads as a Python number
(booleans included); all other fields pass through unchanged. -/
def amendedNormalizeField (key : String) (v : Value) : Value :=
  if key = "disk" ∨ key = "mem" ∨ key = "proc" then stripConvert ['%'] v
  else if key = "temp" then stripConvert ['°', 'C'] v
  else if key = "CurrentHeight" then
    match pyNumericVal v with
    | some q => Value.float (q / 1000)
    | none => v
  else v

/-- The amended transform applied to a whole snapshot. -/
def amendedNormalize (data : List (String × Value)) : List (String × Value) :=
  data.map (fun kv => (kv.1, amendedNormalizeField kv.1 kv.2))

theorem normalizeField_eq_amended (k : String) (v : Value) :
    normalizeField k v = amendedNormalizeField k v := by
  by_cases h1 : k = "disk" ∨ k = "mem" ∨ k = "proc"
  · cases v <;> simp [normalizeField, amendedNormalizeField, stripConvert, h1]
  · by_cases h2 : k = "temp"
    · cases v <;>
        simp [normalizeField, amendedNormalizeField, stripConvert, h1, h2]
    · by_cases h3 : k = "CurrentHeight"
      · cases v <;>
          simp [normalizeField, amendedNormalizeField, pyNumericVal, h1, h2, h3]
      · simp [normalizeField, amendedNormalizeField, h1, h2, h3]

/-! ## Claims -/

/-- C1 (counterexample): `_normalize_data` is *not* idempotent on every
snapshot — an already-divided numeric `CurrentHeight` still satisfies
`isinstance(value, (int, float))` and is divided by 1000 again
(`42550 ↦ 42.55 ↦ 0.04255`). -/
theorem C1_counterexample :
    _normalize_data (_normalize_data [("CurrentHeight", Value.int 42550)]) ≠
      _normalize_data [("CurrentHeight", Value.int 42550)] := by
  have h1 : _normalize_data [("CurrentHeight", Value.int 42550)] =
      [("CurrentHeight", Value.float (((42550 : Int) : Rat) / 1000))] := rfl
  have h2 : _normalize_data
      [("CurrentHeight", Value.float (((42550 : Int) : Rat) / 1000))] =
      [("CurrentHeight", Value.float ((((42550 : Int) : Rat) / 1000) / 1000))] := rfl
  rw [h1, h2]
  intro h
  simp only [List.cons.injEq, Prod.mk.injEq, Value.float.injEq, true_and,
    and_true] at h
  norm_num at h

/-- C1 (amended): `_normalize_data` is idempotent on every snapshot whose
`CurrentHeight` entry, if any, is not numeric (not an int, float or bool):
the percent/temperature string conversions can never double-convert —
re-application sees a float, not a string, and skips — but a numeric
`CurrentHeight` is divided by 1000 again on each application. -/
theorem C1_theorem (data : List (String × Value))
    (h : ∀ p ∈ data, p.1 = "CurrentHeight" → isNumericValue p.2 = false) :
    _normalize_data (_normalize_data data) = _normalize_data data := by
  unfold _normalize_data
  rw [List.map_map]
  refine List.map_congr_left ?_
  intro p hp
  simp only [Function.comp]
  rw [normalizeField_idem p.1 p.2 (h p hp)]

/-- C1 (witness): idempotence on a typical snapshot with converted
percent/temperature strings and a non-numeric `CurrentHeight`. -/
theorem C1_witness :
    _normalize_data (_normalize_data
      [("disk", Value.str "49%"), ("temp", Value.str "41.35°C"),
       ("Status", Value.str "Printing"), ("CurrentHeight", Value.str "n/a")]) =
    _normalize_data
      [("disk", Value.str "49%"), ("temp", Value.str "41.35°C"),
       ("Status", Value.str "Printing"), ("CurrentHeight", Value.str "n/a")] :=
  C1_theorem _ (by decide)

/-- C5 (counterexample): `_normalize_data` differs from the spec's
reference transform — `float(value.rstrip("%"))` also converts a *bare*
numeric string such as `"49"` (and strips repeated suffix characters),
whereas the reference converts only values carrying the `%` suffix. -/
theorem C5_counterexample :
    _normalize_data [("disk", Value.str "49")] = [("disk", Value.float 49)] ∧
    specNormalize [("disk", Value.str "49")] = [("disk", Value.str "49")] ∧
    _normalize_data [("disk", Value.str "49")] ≠
      specNormalize [("disk", Value.str "49")] := by
  decide

/-- C5 (amended): for every raw mapping, `_normalize_data` equals the
amended reference transform, in which `disk`/`mem`/`proc` (resp. `temp`)
strings are converted after removing *all* trailing `%` (resp. `°`/`C`)
characters — so bare numeric strings convert too — unparsable strings are
left unchanged, `CurrentHeight` is divided by 1000 whenever it is a Python
number (booleans being `int`s count as numeric), and every other field,
`Status` included, passes through unchanged. -/
theorem C5_theorem (data : List (String × Value)) :
    _normalize_data data = amendedNormalize data := by
  unfold _normalize_data amendedNormalize
  refine List.map_congr_left ?_
  intro p _
  rw [normalizeField_eq_amended]

/-- C2 (counterexample): the extractor does *not* always return the
first-start-to-first-end sub-range.  On the stream
`b"Content-Length: -990\r\n" ++ FFD9 ++ FFD8 ++ FFD9` (a parseable — here
negative — `Content-Length`, an end marker before any start marker), the
content-length safety valve fires on the first chunk and returns the
header noise through the early end marker, even though the stream contains
a complete `FFD8 … FFD9` pair later. -/
theorem C2_counterexample :
    _extract_mjpeg_frame
      [[67, 111, 110, 116, 101, 110, 116, 45, 76, 101, 110, 103, 116, 104,
        58, 32, 45, 57, 57, 48, 13, 10, 255, 217],
       [255, 216, 255, 217]] =
      some [67, 111, 110, 116, 101, 110, 116, 45, 76, 101, 110, 103, 116,
        104, 58, 32, 45, 57, 57, 48, 13, 10, 255, 217] ∧
    findSub jpegStartMarker
      ([[67, 111, 110, 116, 101, 110, 116, 45, 76, 101, 110, 103, 116, 104,
         58, 32, 45, 57, 57, 48, 13, 10, 255, 217],
        [255, 216, 255, 217]] : List (List Nat)).flatten = some 24 ∧
    findSub jpegEndMarker
      ((([[67, 111, 110, 116, 101, 110, 116, 45, 76, 101, 110, 103, 116,
          104, 58, 32, 45, 57, 57, 48, 13, 10, 255, 217],
         [255, 216, 255, 217]] : List (List Nat)).flatten).drop 24) = some 2 ∧
    ((([[67, 111, 110, 116, 101, 110, 116, 45, 76, 101, 110, 103, 116, 104,
        58, 32, 45, 57, 57, 48, 13, 10, 255, 217],
       [255, 216, 255, 217]] : List (List Nat)).flatten).drop 24).take (2 + 2) =
      [255, 216, 255, 217] ∧
    ([67, 111, 110, 116, 101, 110, 116, 45, 76, 101, 110, 103, 116, 104, 58,
      32, 45, 57, 57, 48, 13, 10, 255, 217] : List Nat) ≠
      [255, 216, 255, 217] := by
  decide

/-- C2 (amended): for every chunked byte stream that contains a start
marker `FFD8` followed later by an end marker `FFD9`, the extractor
returns exactly the sub-range from the first start marker through the
first subsequent end marker inclusive (discarding what precedes the start
marker) — *provided* the stream contains no `Content-Length:` text (whose
safety valve can return a different, earlier range) and the stream stays
within the 2 MB ceiling. -/
theorem C2_theorem (chunks : List (List Nat)) (i r : Nat)
    (hCL : findSub clMarkerBytes chunks.flatten = none)
    (hlen : chunks.flatten.length ≤ 2 * 1024 * 1024)
    (hS : findSub jpegStartMarker chunks.flatten = some i)
    (hE : findSub jpegEndMarker (chunks.flatten.drop i) = some r) :
    _extract_mjpeg_frame chunks =
      some ((chunks.flatten.drop i).take (r + 2)) :=
  extractLoopA_found chunks [] i r hCL (by decide) hlen hS hE

/-- C2 (witness): on `[noise][FFD8][payload][FFD9][trailing]` delivered as
one chunk, the extractor returns `[FFD8][payload][FFD9]`. -/
theorem C2_witness :
    _extract_mjpeg_frame [[0, 255, 216, 65, 255, 217, 66]] =
      some (((([[0, 255, 216, 65, 255, 217, 66]] :
        List (List Nat)).flatten).drop 1).take (3 + 2)) :=
  C2_theorem [[0, 255, 216, 65, 255, 217, 66]] 1 3
    (by decide) (by decide) (by decide) (by decide)

/-- The failing shapes of the status fetch: an exception before decoding
(timeout, non-2xx, transport error, non-JSON body), or a decoded body
missing the `Status` field. -/
def statusFetchFails : StatusFetch → Prop
  | StatusFetch.ok body => dlookup "Status" body = none
  | _ => True

/-- C3: whenever the status fetch fails (timeout, non-2xx, transport
error, non-JSON body) or the decoded body lacks `Status`,
`_async_update_data` raises an `UpdateFailed`-class error, and the
coordinator's refresh keeps the previously cached snapshot as the
externally visible value (and reports failure) — no partial or empty
snapshot is published. -/
theorem C3_theorem (cache : Option (List (String × Value)))
    (status : StatusFetch) (resp : Nat → AnalyticResp)
    (h : statusFetchFails status) :
    (∃ e, _async_update_data status resp = Except.error e) ∧
    refreshStep cache status resp = (cache, false) := by
  cases status with
  | ok body =>
    have hb : dlookup "Status" body = none := h
    refine ⟨⟨"Invalid response from printer - missing Status field", ?_⟩, ?_⟩
    · simp [_async_update_data, hb]
    · simp [refreshStep, _async_update_data, hb]
  | timeout => exact ⟨⟨_, rfl⟩, rfl⟩
  | non2xx code => exact ⟨⟨_, rfl⟩, rfl⟩
  | clientError => exact ⟨⟨_, rfl⟩, rfl⟩
  | badJson => exact ⟨⟨_, rfl⟩, rfl⟩

/-- C3 (witness): an HTTP 500 status fetch (the spec's own example) leaves
the cached snapshot unchanged and signals failure. -/
theorem C3_witness :
    (∃ e, _async_update_data (StatusFetch.non2xx 500)
        (fun _ => AnalyticResp.timeout) = Except.error e) ∧
    refreshStep (some [("Status", Value.str "Idle")]) (StatusFetch.non2xx 500)
        (fun _ => AnalyticResp.timeout) =
      (some [("Status", Value.str "Idle")], false) :=
  C3_theorem (some [("Status", Value.str "Idle")]) (StatusFetch.non2xx 500)
    (fun _ => AnalyticResp.timeout) trivial

/-- C4: for every assignment of per-metric outcomes (so for every subset
of the 28 metric ids that fail by non-200, unparsable body, timeout or
transport error), the analytic fetch returns exactly the successfully
parsed metrics as field-name → float entries — a pair is in the result iff
its metric id's response passed the 200-and-parses filter — and the fetch
is a total function (it never raises); moreover analytic failures never
abort the poll cycle: with any well-formed status body the update still
succeeds. -/
theorem C4_theorem :
    (∀ (resp : Nat → AnalyticResp) (k : String) (v : Value),
       (k, v) ∈ _fetch_analytic_data resp ↔
         ∃ mid, (mid, k) ∈ ANALYTIC_METRICS ∧
           analyticParsed (resp mid) = some v) ∧
    (∀ (resp : Nat → AnalyticResp) (data : List (String × Value)),
       dlookup "Status" data ≠ none →
       ∃ snap, _async_update_data (StatusFetch.ok data) resp =
         Except.ok snap) := by
  constructor
  · intro resp k v
    exact mem_fetchAnalyticList resp ANALYTIC_METRICS k v
  · intro resp data h
    exact ⟨_normalize_data (dictUpdate data (_fetch_analytic_data resp)),
      by simp [_async_update_data, h]⟩

/-- C4 (witness): with metric 6 (`pressure`) the only 200/parsable
response, the fetch contains `pressure`, and a cycle whose other 27
metrics time out still succeeds. -/
theorem C4_witness :
    (("pressure", Value.float 7) ∈ _fetch_analytic_data
      (fun mid => if mid = 6 then AnalyticResp.status 200 "7"
                  else AnalyticResp.timeout)) ∧
    (∃ snap, _async_update_data (StatusFetch.ok [("Status", Value.str "Idle")])
      (fun mid => if mid = 6 then AnalyticResp.status 200 "7"
                  else AnalyticResp.timeout) = Except.ok snap) :=
  ⟨(C4_theorem.1 (fun mid => if mid = 6 then AnalyticResp.status 200 "7"
      else AnalyticResp.timeout) "pressure" (Value.float 7)).mpr
      ⟨6, by decide, by decide⟩,
   C4_theorem.2 (fun mid => if mid = 6 then AnalyticResp.status 200 "7"
      else AnalyticResp.timeout) [("Status", Value.str "Idle")] (by decide)⟩

/-- C6 (counterexample): a stream with *no* start marker at all (hence no
complete marker pair) on which the extractor still returns non-null: the
content-length valve fires (`b"Content-Length: -980\r\n"` parses, and the
buffer exceeds `content_length + 1000`) and an early end marker is
present. -/
theorem C6_counterexample :
    findSub jpegStartMarker
      ([[67, 111, 110, 116, 101, 110, 116, 45, 76, 101, 110, 103, 116, 104,
        58, 32, 45, 57, 56, 48, 13, 10, 255, 217, 66]] :
        List (List Nat)).flatten = none ∧
    _extract_mjpeg_frame
      [[67, 111, 110, 116, 101, 110, 116, 45, 76, 101, 110, 103, 116, 104,
        58, 32, 45, 57, 56, 48, 13, 10, 255, 217, 66]] ≠ none := by
  decide

/-- C6 (amended): on every input stream in which no complete
start-marker/end-marker pair occurs, the extractor returns null — at EOF
as well as when the 2 MB ceiling is exceeded — *provided* the
content-length safety valve cannot return early: it suffices that the
stream contains no end marker at all, or no `Content-Length:` text. -/
theorem C6_theorem (chunks : List (List Nat))
    (hpair : ∀ i, findSub jpegStartMarker chunks.flatten = some i →
             findSub jpegEndMarker (chunks.flatten.drop i) = none)
    (hguard : findSub jpegEndMarker chunks.flatten = none ∨
              findSub clMarkerBytes chunks.flatten = none) :
    _extract_mjpeg_frame chunks = none := by
  rcases hguard with hE | hCL
  · exact extractLoop_noEnd chunks ⟨[], none, false⟩ hE
  · exact extractLoopA_none chunks [] hCL (by decide) hpair

/-- C6 (witness): a stream holding a start marker but no end marker (an
explicit spec edge case) yields null at EOF. -/
theorem C6_witness :
    _extract_mjpeg_frame [[65, 255], [216]] = none :=
  C6_theorem [[65, 255], [216]]
    (fun i h => by
      have h1 : findSub jpegStartMarker
          ([[65, 255], [216]] : List (List Nat)).flatten = some 1 := by decide
      obtain rfl : i = 1 := Option.some.inj (h1.symm.trans h).symm
      decide)
    (Or.inl (by decide))

/-- C7: (a) a call made while the elapsed time since the last successful
capture is strictly below the frame interval `1/fps`, with a cached image
present, returns the cached bytes unchanged, leaves the state untouched
and performs no network fetch; (b) a call made after the interval has
elapsed starts a fetch and, when extraction and rotate/encode succeed,
returns the fresh bytes and updates both the cached image and the capture
timestamp; (c) every call past the interval triggers a fetch, whatever the
outcome. -/
theorem C7_theorem :
    (∀ (st : CamState) (now fps : Rat) (outcome : CameraFetch)
       (encode : List Nat → Option (List Nat)) (img : List Nat),
       now - st.last_frame_time < frameIntervalOf fps →
       st.last_image = some img →
       async_camera_image st now (frameIntervalOf fps) outcome encode =
         ⟨some img, st, false⟩) ∧
    (∀ (st : CamState) (now fps : Rat) (chunks : List (List Nat))
       (encode : List Nat → Option (List Nat)) (img out : List Nat),
       ¬ now - st.last_frame_time < frameIntervalOf fps →
       _extract_mjpeg_frame chunks = some img →
       img ≠ [] →
       encode img = some out →
       async_camera_image st now (frameIntervalOf fps)
           (CameraFetch.body chunks) encode =
         ⟨some out, ⟨now, some out⟩, true⟩) ∧
    (∀ (st : CamState) (now fps : Rat) (outcome : CameraFetch)
       (encode : List Nat → Option (List Nat)),
       ¬ now - st.last_frame_time < frameIntervalOf fps →
       (async_camera_image st now (frameIntervalOf fps) outcome
         encode).fetched = true) := by
  refine ⟨?_, ?_, ?_⟩
  · intro st now fps outcome encode img hlt himg
    have hcond : now - st.last_frame_time < frameIntervalOf fps ∧
        st.last_image ≠ none := ⟨hlt, by simp [himg]⟩
    rw [async_camera_image.eq_def, if_pos hcond, himg]
  · intro st now fps chunks encode img out hlt hext hne henc
    have hcond : ¬(now - st.last_frame_time < frameIntervalOf fps ∧
        st.last_image ≠ none) := fun hc => hlt hc.1
    rw [async_camera_image.eq_def, if_neg hcond]
    simp [hext, hne, henc]
  · intro st now fps outcome encode hlt
    have hcond : ¬(now - st.last_frame_time < frameIntervalOf fps ∧
        st.last_image ≠ none) := fun hc => hlt hc.1
    rw [async_camera_image.eq_def, if_neg hcond]
    cases outcome with
    | timeout => rfl
    | clientError => rfl
    | body chunks =>
      cases hx : _extract_mjpeg_frame chunks with
      | none => simp [hx]
      | some img =>
        by_cases hempty : img = []
        · simp [hx, hempty]
        · cases he : encode img <;> simp [hx, hempty, he]

/-- C7 (witness): a rate-limited call returns the cache with no fetch; a
call past the interval fetches, returns the fresh frame and updates the
cache and timestamp. -/
theorem C7_witness :
    async_camera_image ⟨0, some [1]⟩ 0 (frameIntervalOf 1) CameraFetch.timeout
        (fun _ => none) = ⟨some [1], ⟨0, some [1]⟩, false⟩ ∧
    async_camera_image ⟨0, none⟩ 5 (frameIntervalOf 1)
        (CameraFetch.body [[255, 216, 255, 217]]) (fun l => some l) =
      ⟨some [255, 216, 255, 217], ⟨5, some [255, 216, 255, 217]⟩, true⟩ :=
  ⟨C7_theorem.1 ⟨0, some [1]⟩ 0 1 CameraFetch.timeout (fun _ => none) [1]
      (by norm_num [frameIntervalOf]) rfl,
   C7_theorem.2.1 ⟨0, none⟩ 5 1 [[255, 216, 255, 217]] (fun l => some l)
      [255, 216, 255, 217] [255, 216, 255, 217]
      (by norm_num [frameIntervalOf]) (by decide) (by decide) rfl⟩

/-- C8: on every failure path of a camera call — timeout, transport error,
absent or empty extracted frame, or a raising rotate/encode step — the
call returns the previously cached image (null when none is cached) and
leaves the cached image and capture timestamp unchanged; the embedded call
is a total function, so no exception propagates. -/
theorem C8_theorem (st : CamState) (now fi : Rat) (outcome : CameraFetch)
    (encode : List Nat → Option (List Nat)) (h : camFailure outcome encode) :
    (async_camera_image st now fi outcome encode).result = st.last_image ∧
    (async_camera_image st now fi outcome encode).state = st := by
  by_cases hc : now - st.last_frame_time < fi ∧ st.last_image ≠ none
  · rw [async_camera_image.eq_def, if_pos hc]
    exact ⟨rfl, rfl⟩
  · rw [async_camera_image.eq_def, if_neg hc]
    cases outcome with
    | timeout => exact ⟨rfl, rfl⟩
    | clientError => exact ⟨rfl, rfl⟩
    | body chunks =>
      have h' : (match _extract_mjpeg_frame chunks with
                 | none => True
                 | some img => img = [] ∨ encode img = none) := h
      cases hx : _extract_mjpeg_frame chunks with
      | none => simp [hx]
      | some img =>
        rw [hx] at h'
        rcases h' with h3 | h4
        · simp [hx, h3]
        · by_cases hempty : img = []
          · simp [hx, hempty]
          · simp [hx, hempty, h4]

/-- C8 (witness): a timed-out fetch returns the cached image and leaves
the state untouched. -/
theorem C8_witness :
    (async_camera_image ⟨0, some [9]⟩ 5 1 CameraFetch.timeout
        (fun _ => none)).result = some [9] ∧
    (async_camera_image ⟨0, some [9]⟩ 5 1 CameraFetch.timeout
        (fun _ => none)).state = ⟨0, some [9]⟩ :=
  C8_theorem ⟨0, some [9]⟩ 5 1 CameraFetch.timeout (fun _ => none) trivial

/-- C9: the merge `data.update(analytic_data)` gives analytic values
precedence — for every status body containing `Status` and every
successfully fetched analytic field, the published snapshot maps that
field name to the analytic float value, overwriting any same-named status
field (no analytic field name is one of the normalizer's special keys, so
normalization preserves the merged value). -/
theorem C9_theorem (data : List (String × Value)) (resp : Nat → AnalyticResp)
    (k : String) (q : Rat)
    (hstatus : dlookup "Status" data ≠ none)
    (hk : dlookup k (_fetch_analytic_data resp) = some (Value.float q)) :
    ∃ snap, _async_update_data (StatusFetch.ok data) resp = Except.ok snap ∧
      dlookup k snap = some (Value.float q) := by
  refine ⟨_normalize_data (dictUpdate data (_fetch_analytic_data resp)),
    by simp [_async_update_data, hstatus], ?_⟩
  rw [dlookup_normalize, dlookup_dictUpdate, hk]
  have hkmem : k ∈ ANALYTIC_METRICS.map Prod.snd :=
    dlookup_fetchAnalyticList_mem resp ANALYTIC_METRICS k (Value.float q) hk
  have hall : ∀ x ∈ ANALYTIC_METRICS.map Prod.snd,
      ¬(x = "disk" ∨ x = "mem" ∨ x = "proc") ∧ x ≠ "temp" ∧
        x ≠ "CurrentHeight" := by decide
  obtain ⟨h1, h2, h3⟩ := hall k hkmem
  simp [normalizeField_other k (Value.float q) h1 h2 h3]

/-- C9 (witness): `pressure` fetched as `7.0` overwrites a same-named
status field, and the published snapshot carries the analytic value. -/
theorem C9_witness :
    ∃ snap, _async_update_data
        (StatusFetch.ok [("Status", Value.str "Idle"),
                         ("pressure", Value.str "old")])
        (fun mid => if mid = 6 then AnalyticResp.status 200 "7"
                    else AnalyticResp.timeout) = Except.ok snap ∧
      dlookup "pressure" snap = some (Value.float 7) :=
  C9_theorem [("Status", Value.str "Idle"), ("pressure", Value.str "old")]
    (fun mid => if mid = 6 then AnalyticResp.status 200 "7"
                else AnalyticResp.timeout)
    "pressure" 7 (by decide) (by decide)

/-- C10: on a stream with a parseable `Content-Length:` header and an end
marker but no start marker, grown past `content_length + 1000` bytes, the
extractor returns a non-null byte string that does not begin with the JPEG
start marker; and in general every non-null result is guaranteed only to
end with `FFD9` — not to begin with `FFD8`. -/
theorem C10_theorem :
    (_extract_mjpeg_frame
        [[67, 111, 110, 116, 101, 110, 116, 45, 76, 101, 110, 103, 116, 104,
          58, 32, 45, 57, 56, 53, 13, 10, 65, 255, 217]] =
        some [67, 111, 110, 116, 101, 110, 116, 45, 76, 101, 110, 103, 116,
          104, 58, 32, 45, 57, 56, 53, 13, 10, 65, 255, 217] ∧
      findSub jpegStartMarker
        ([[67, 111, 110, 116, 101, 110, 116, 45, 76, 101, 110, 103, 116,
          104, 58, 32, 45, 57, 56, 53, 13, 10, 65, 255, 217]] :
          List (List Nat)).flatten = none ∧
      clParse [67, 111, 110, 116, 101, 110, 116, 45, 76, 101, 110, 103, 116,
          104, 58, 32, 45, 57, 56, 53, 13, 10, 65, 255, 217] = some (-985) ∧
      startsWithL [67, 111, 110, 116, 101, 110, 116, 45, 76, 101, 110, 103,
          116, 104, 58, 32, 45, 57, 56, 53, 13, 10, 65, 255, 217]
        jpegStartMarker = false) ∧
    (∀ (chunks : List (List Nat)) (r : List Nat),
       _extract_mjpeg_frame chunks = some r →
       endsWithL r jpegEndMarker = true) := by
  refine ⟨by decide, ?_⟩
  intro chunks r h
  exact extractLoop_some_endsWith chunks ⟨[], none, false⟩ r h

/-- C10 (witness): the universally quantified part applied to the concrete
valve-returned frame: it ends with the end marker. -/
theorem C10_witness :
    endsWithL [67, 111, 110, 116, 101, 110, 116, 45, 76, 101, 110, 103, 116,
      104, 58, 32, 45, 57, 56, 53, 13, 10, 65, 255, 217] jpegEndMarker =
      true :=
  C10_theorem.2
    [[67, 111, 110, 116, 101, 110, 116, 45, 76, 101, 110, 103, 116, 104,
      58, 32, 45, 57, 56, 53, 13, 10, 65, 255, 217]]
    [67, 111, 110, 116, 101, 110, 116, 45, 76, 101, 110, 103, 116, 104,
      58, 32, 45, 57, 56, 53, 13, 10, 65, 255, 217]
    (by decide)
